import Mathlib

/-!
Shallow embedding of `total-wireless-app2.py`, a point-of-sale and
inventory tracker.  The two persisted JSON documents are modelled as pure
values: the inventory document as an association list (Python dicts keep
insertion order and have unique keys; lookup/assignment on the first
matching key reproduces dict semantics), the sales document as a list of
records.  Monetary amounts (Streamlit `number_input` floats, i.e. IEEE-754
binary64 doubles) are represented by their exact rational values,
quantities as integers.  Aggregation is embedded twice: `calculate_totals`
sums in exact rational arithmetic (the idealization under which the
order-independence properties hold), and `calculate_totalsD` sums with
binary64 round-to-nearest-even after every addition (`roundB64`), which is
the arithmetic the program actually executes and which falsifies the
order-independence properties.  Handlers are pure functions from the
loaded document state to the new document state, together with an outcome
and a trace of ledger events, which makes the ordering between the
inventory decrement and the sales append expressible.
-/

namespace TotalWireless

/-- An association list with string keys, modelling a Python dict. -/
abbrev Assoc (α : Type) := List (String × α)

/-- `d[k]` lookup on a dict: first matching key. -/
def Assoc.find (l : Assoc α) (k : String) : Option α :=
  match l with
  | [] => none
  | (k', v) :: rest => if k' = k then some v else Assoc.find rest k

/-- `d[k] = v` on a dict: overwrite the first occurrence of `k` in place,
otherwise append `(k, v)` at the end (insertion order). -/
def Assoc.set (l : Assoc α) (k : String) (v : α) : Assoc α :=
  match l with
  | [] => [(k, v)]
  | (k', v') :: rest => if k' = k then (k, v) :: rest else (k', v') :: Assoc.set rest k v

/-- The inventory document: store name → (product name → quantity). -/
abbrev Inventory := Assoc (Assoc Int)

/-- Quantity stored for `(store, product)`, `none` when the store or the
product key is absent (Python `store not in inventory or product not in
inventory[store]`). -/
def invFind (doc : Inventory) (store product : String) : Option Int :=
  match Assoc.find doc store with
  | none => none
  | some prods => Assoc.find prods product

/-- Outcome of `reduce_inventory`: Python returns `False` after one of two
distinct `st.error` messages, or `True`. -/
inductive InvResult where
  | ok
  | notFound
  | insufficientStock
deriving DecidableEq, Repr

/-- `reduce_inventory(store, product, qty)` from the source: load the
document, fail with not-found when the store or product key is absent,
fail with insufficient stock when the stored quantity is `< qty`,
otherwise subtract `qty` and save.  The returned document is what is
persisted: on failure nothing is saved, so it equals the input. -/
def reduce_inventory (doc : Inventory) (store product : String) (qty : Int) :
    Inventory × InvResult :=
  match Assoc.find doc store with
  | none => (doc, .notFound)
  | some prods =>
    match Assoc.find prods product with
    | none => (doc, .notFound)
    | some cur =>
      if cur < qty then (doc, .insufficientStock)
      else (Assoc.set doc store (Assoc.set prods product (cur - qty)), .ok)

/-- The "Update Inventory" button handler from the source:
`current_qty = inventory.get(store, {}).get(product, 0)`, create the store
dict if absent, then `inventory[store][product] = current_qty + qty_add`
and save. -/
def upsert (doc : Inventory) (store product : String) (qtyAdd : Int) : Inventory :=
  let currentQty := (Assoc.find ((Assoc.find doc store).getD []) product).getD 0
  match Assoc.find doc store with
  | none => Assoc.set doc store (Assoc.set [] product (currentQty + qtyAdd))
  | some prods => Assoc.set doc store (Assoc.set prods product (currentQty + qtyAdd))

/-- One committed sale record, fields as written by the Save Sale handler. -/
structure SaleRecord where
  employee : String
  store : String
  date : String
  type : String
  product : String
  quantity : Int
  cost : ℚ
  sold : ℚ
  acc : ℚ
  payment_method : String
deriving DecidableEq, Repr

/-- The totals dictionary returned by `calculate_totals`. -/
structure Totals where
  cost : ℚ
  sold : ℚ
  acc : ℚ
  cash : ℚ
  card : ℚ
deriving DecidableEq, Repr

/-- Python's builtin `sum` over a sequence of numbers: a left fold
starting from 0, here in exact rational arithmetic (the idealization of
the program's float sum; `pysumD` below models the float rounding). -/
def pysum (l : List ℚ) : ℚ := l.foldl (· + ·) 0

/-- `calculate_totals(sales)` from the source: component-wise sums over
the record list, with `cash`/`card` summing `sold` over the records whose
`payment_method` matches.  Sums taken in exact rational arithmetic;
`calculate_totalsD` below is the same function over binary64 floats. -/
def calculate_totals (sales : List SaleRecord) : Totals :=
  { cost := pysum (sales.map (·.cost))
    sold := pysum (sales.map (·.sold))
    acc := pysum (sales.map (·.acc))
    cash := pysum ((sales.filter (fun s => s.payment_method = "Cash")).map (·.sold))
    card := pysum ((sales.filter (fun s => s.payment_method = "Card")).map (·.sold)) }

/-- Python's `str.strip()`: remove leading and trailing whitespace. -/
def pyStrip (s : String) : String :=
  ⟨((s.data.dropWhile Char.isWhitespace).reverse.dropWhile Char.isWhitespace).reverse⟩

/-- The two documents the app reads and writes. -/
structure AppState where
  inventory : Inventory
  sales : List SaleRecord
deriving DecidableEq, Repr

/-- Ledger-mutating calls made by the Save Sale handler, in order. -/
inductive SaleEvent where
  | decrementCall (store product : String) (qty : Int)
  | appendCall (r : SaleRecord)
deriving DecidableEq, Repr

/-- Outcome surfaced by the Save Sale handler. -/
inductive SaveOutcome where
  | saved
  | emptyProduct
  | invFailed (e : InvResult)
deriving DecidableEq, Repr

/-- The "Save Sale" button handler from the source, including the widget
logic that forces `product = "Bill Payment"` and `qty = 1` for a bill
payment.  Returns the new document state, the outcome, and the trace of
ledger calls: for a phone sale `reduce_inventory` is called first and
`st.stop()` aborts before the append when it fails; otherwise the record
(with `acc = sold - cost`) is appended to the loaded sales list and
saved. -/
def addSale (st : AppState) (employee store saleType productInput : String)
    (qtyInput : Int) (cost sold : ℚ) (paymentMethod date : String) :
    AppState × SaveOutcome × List SaleEvent :=
  let product := if saleType = "Phone Sale" then productInput else "Bill Payment"
  let qty := if saleType = "Phone Sale" then qtyInput else 1
  if pyStrip product = "" then (st, .emptyProduct, [])
  else
    let p := pyStrip product
    let record : SaleRecord :=
      { employee := employee, store := store, date := date, type := saleType
        product := p, quantity := qty, cost := cost, sold := sold
        acc := sold - cost, payment_method := paymentMethod }
    if saleType = "Phone Sale" then
      let res := reduce_inventory st.inventory store p qty
      if res.2 = .ok then
        (⟨res.1, st.sales ++ [record]⟩, .saved,
          [.decrementCall store p qty, .appendCall record])
      else
        (⟨res.1, st.sales⟩, .invFailed res.2, [.decrementCall store p qty])
    else
      (⟨st.inventory, st.sales ++ [record]⟩, .saved, [.appendCall record])

/-- A concrete sale record used to instantiate universally quantified
results on concrete inputs. -/
def sampleSale (pm : String) (c s : ℚ) : SaleRecord :=
  { employee := "e", store := "1 E Penn Sq", date := "01/01/2025 09:00"
    type := "Phone Sale", product := "W", quantity := 1
    cost := c, sold := s, acc := s - c, payment_method := pm }

/-- Round-half-to-even of a rational to an integer, the tie-breaking rule
of IEEE-754 round-to-nearest. -/
def roundHalfEven (q : ℚ) : ℤ :=
  if q - ⌊q⌋ < 1/2 then ⌊q⌋
  else if 1/2 < q - ⌊q⌋ then ⌊q⌋ + 1
  else if ⌊q⌋ % 2 = 0 then ⌊q⌋ else ⌊q⌋ + 1

/-- Rounding of an exact rational to the nearest IEEE-754 binary64 double
(round-to-nearest, ties to even), for values in the binary64 normal
finite range, which covers every amount this application handles.  A
double is represented by its exact rational value: 53 significant bits at
the value's binade, i.e. an integer multiple of `2 ^ (e - 52)` where
`2 ^ e ≤ |q| < 2 ^ (e + 1)`. -/
def roundB64 (q : ℚ) : ℚ :=
  if q = 0 then 0
  else
    (if q < 0 then (-1 : ℚ) else 1) *
      (roundHalfEven (|q| / 2 ^ (Int.log 2 |q| - 52)) : ℚ) * 2 ^ (Int.log 2 |q| - 52)

/-- Binary64 addition: exact sum, then rounding.  This is the `+` the
program executes on Python floats. -/
def faddD (x y : ℚ) : ℚ := roundB64 (x + y)

/-- Python's builtin `sum` over floats: a left fold of binary64 additions
starting from 0. -/
def pysumD (l : List ℚ) : ℚ := l.foldl faddD 0

/-- `calculate_totals(sales)` as the program executes it over binary64
floats: the same aggregation structure as `calculate_totals`, with
rounding after every addition. -/
def calculate_totalsD (sales : List SaleRecord) : Totals :=
  { cost := pysumD (sales.map (·.cost))
    sold := pysumD (sales.map (·.sold))
    acc := pysumD (sales.map (·.acc))
    cash := pysumD ((sales.filter (fun s => s.payment_method = "Cash")).map (·.sold))
    card := pysumD ((sales.filter (fun s => s.payment_method = "Card")).map (·.sold)) }

/-- A sale record with a given payment method and sold amount, zero cost
(so its margin equals the sold amount, exactly as the program computes
`acc = sold - 0`). -/
def fsale (pm : String) (sold : ℚ) : SaleRecord :=
  { employee := "e", store := "1 E Penn Sq", date := "01/01/2025 09:00"
    type := "Phone Sale", product := "W", quantity := 1
    cost := 0, sold := sold, acc := sold, payment_method := pm }

/-- The binary64 double nearest 0.1: what the program stores when the
user enters 0.1. -/
def d01 : ℚ := 3602879701896397 / 2 ^ 55

/-- The binary64 double nearest 0.2. -/
def d02 : ℚ := 3602879701896397 / 2 ^ 54

/-- The binary64 double nearest 0.3. -/
def d03 : ℚ := 5404319552844595 / 2 ^ 54

/-- The double computed by `0.1 + 0.2` (the value printing as
`0.30000000000000004`). -/
def s12 : ℚ := 5404319552844596 / 2 ^ 54

/-- The double computed by `(0.1 + 0.2) + 0.3` (prints as
`0.6000000000000001`). -/
def t1 : ℚ := 5404319552844596 / 2 ^ 53

/-- The double computed by `(0.3 + 0.2) + 0.1` (prints as `0.6`). -/
def t2 : ℚ := 5404319552844595 / 2 ^ 53

/-- Every quantity stored in the inventory document is non-negative. -/
def allNonneg (doc : Inventory) : Bool :=
  doc.all (fun sp => sp.2.all (fun pq => 0 ≤ pq.2))

/-- Apply a sequence of Update Inventory submissions, each a
`(store, product, qtyToAdd)` triple, in order. -/
def applyUpserts : Inventory → List (String × String × Int) → Inventory
  | doc, [] => doc
  | doc, (s, p, a) :: rest => applyUpserts (upsert doc s p a) rest

/-- Stored quantity of `(store, product)`, defaulting to 0 when the entry
is absent. -/
def qtyOf (doc : Inventory) (store product : String) : Int :=
  (invFind doc store product).getD 0

/-- Sum of the `qtyToAdd` values of the calls addressed to a given
`(store, product)` pair. -/
def sumFor (calls : List (String × String × Int)) (store product : String) : Int :=
  match calls with
  | [] => 0
  | (s, p, a) :: rest =>
    (if s = store ∧ p = product then a else 0) + sumFor rest store product

theorem Assoc.find_set_self (l : Assoc α) (k : String) (v : α) :
    Assoc.find (Assoc.set l k v) k = some v := by
  induction l with
  | nil => simp [Assoc.set, Assoc.find]
  | cons hd tl ih =>
    obtain ⟨k', v'⟩ := hd
    by_cases h : k' = k
    · simp [Assoc.set, Assoc.find, h]
    · simp [Assoc.set, Assoc.find, h, ih]

theorem Assoc.find_set_ne (l : Assoc α) (k k' : String) (v : α) (h : k' ≠ k) :
    Assoc.find (Assoc.set l k v) k' = Assoc.find l k' := by
  induction l with
  | nil =>
    simp only [Assoc.set, Assoc.find]
    rw [if_neg (Ne.symm h)]
  | cons hd tl ih =>
    obtain ⟨k₀, v₀⟩ := hd
    by_cases hk : k₀ = k
    · subst hk
      simp only [Assoc.set, if_pos rfl, Assoc.find]
      rw [if_neg (Ne.symm h), if_neg (Ne.symm h)]
    · simp only [Assoc.set, if_neg hk, Assoc.find]
      by_cases hk' : k₀ = k'
      · simp [hk']
      · simp [hk', ih]

theorem Assoc.find_mem (l : Assoc α) (k : String) (v : α)
    (h : Assoc.find l k = some v) : (k, v) ∈ l := by
  induction l with
  | nil => simp [Assoc.find] at h
  | cons hd tl ih =>
    obtain ⟨k₀, v₀⟩ := hd
    by_cases hk : k₀ = k
    · subst hk
      simp [Assoc.find] at h
      simp [h]
    · simp only [Assoc.find, if_neg hk] at h
      exact List.mem_cons_of_mem _ (ih h)

theorem Assoc.all_set (p : String × α → Bool) (l : Assoc α) (k : String) (v : α)
    (hl : l.all p = true) (hv : p (k, v) = true) :
    (Assoc.set l k v).all p = true := by
  induction l with
  | nil => simp [Assoc.set, hv]
  | cons hd tl ih =>
    obtain ⟨k₀, v₀⟩ := hd
    simp only [List.all_cons, Bool.and_eq_true] at hl
    by_cases hk : k₀ = k
    · simp [Assoc.set, hk, hv, hl.2]
    · simp [Assoc.set, hk, hl.1, ih hl.2]

theorem allNonneg_find (doc : Inventory) (store : String) (prods : Assoc Int)
    (h : allNonneg doc = true) (hf : Assoc.find doc store = some prods) :
    prods.all (fun pq => 0 ≤ pq.2) = true := by
  have hmem := Assoc.find_mem doc store prods hf
  simp only [allNonneg, List.all_eq_true] at h
  simpa using h _ hmem

theorem allNonneg_value (prods : Assoc Int) (product : String) (cur : Int)
    (h : prods.all (fun pq => 0 ≤ pq.2) = true) (hf : Assoc.find prods product = some cur) :
    0 ≤ cur := by
  have hmem := Assoc.find_mem prods product cur hf
  simp only [List.all_eq_true] at h
  simpa using h _ hmem

theorem allNonneg_set (doc : Inventory) (store : String) (prods : Assoc Int)
    (h : allNonneg doc = true) (hp : prods.all (fun pq => 0 ≤ pq.2) = true) :
    allNonneg (Assoc.set doc store prods) = true :=
  Assoc.all_set _ doc store prods h hp

theorem qtyOf_upsert_self (doc : Inventory) (s p : String) (a : Int) :
    qtyOf (upsert doc s p a) s p = qtyOf doc s p + a := by
  cases hs : Assoc.find doc s with
  | none =>
    simp [upsert, hs, qtyOf, invFind, Assoc.find_set_self, Assoc.find]
  | some prods =>
    simp [upsert, hs, qtyOf, invFind, Assoc.find_set_self]

theorem qtyOf_upsert_other (doc : Inventory) (s p s' p' : String) (a : Int)
    (h : ¬(s' = s ∧ p' = p)) :
    qtyOf (upsert doc s' p' a) s p = qtyOf doc s p := by
  by_cases hss : s' = s
  · subst hss
    have hpp : p' ≠ p := fun hp => h ⟨rfl, hp⟩
    cases hs : Assoc.find doc s' with
    | none =>
      simp [upsert, hs, qtyOf, invFind, Assoc.find_set_self,
        Assoc.find_set_ne ([] : Assoc Int) p' p _ (Ne.symm hpp), Assoc.find, hpp]
    | some prods =>
      simp [upsert, hs, qtyOf, invFind, Assoc.find_set_self,
        Assoc.find_set_ne prods p' p _ (Ne.symm hpp)]
  · cases hs : Assoc.find doc s' with
    | none =>
      simp [upsert, hs, qtyOf, invFind,
        Assoc.find_set_ne doc s' s _ (Ne.symm hss)]
    | some prods =>
      simp [upsert, hs, qtyOf, invFind,
        Assoc.find_set_ne doc s' s _ (Ne.symm hss)]

theorem qtyOf_applyUpserts (calls : List (String × String × Int)) (doc : Inventory)
    (s p : String) :
    qtyOf (applyUpserts doc calls) s p = qtyOf doc s p + sumFor calls s p := by
  induction calls generalizing doc with
  | nil => simp [applyUpserts, sumFor]
  | cons c rest ih =>
    obtain ⟨s', p', a⟩ := c
    show qtyOf (applyUpserts (upsert doc s' p' a) rest) s p = _
    rw [ih]
    by_cases h : s' = s ∧ p' = p
    · obtain ⟨rfl, rfl⟩ := h
      rw [qtyOf_upsert_self]
      simp only [sumFor, and_self, if_true]
      ring
    · rw [qtyOf_upsert_other doc s p s' p' a h]
      simp only [sumFor, if_neg h]
      ring

/-- C3: starting from a document whose quantities are all non-negative,
`reduce_inventory` always yields a document whose quantities are all
non-negative (a call that would go negative is rejected with the document
unchanged), and the Update Inventory upsert with a non-negative
`qtyToAdd` does too. -/
theorem inventory_nonneg_preserved (doc : Inventory) (store product : String)
    (qty qtyAdd : Int) (h : allNonneg doc = true) :
    allNonneg (reduce_inventory doc store product qty).1 = true ∧
    (0 ≤ qtyAdd → allNonneg (upsert doc store product qtyAdd) = true) := by
  constructor
  · cases hs : Assoc.find doc store with
    | none => simp [reduce_inventory, hs, h]
    | some prods =>
      cases hp : Assoc.find prods product with
      | none => simp [reduce_inventory, hs, hp, h]
      | some cur =>
        by_cases hlt : cur < qty
        · simp [reduce_inventory, hs, hp, hlt, h]
        · simp only [reduce_inventory, hs, hp, if_neg hlt]
          have hall := allNonneg_find doc store prods h hs
          have hnn : (0 : Int) ≤ cur - qty := by omega
          exact allNonneg_set doc store _ h
            (Assoc.all_set _ prods product (cur - qty) hall (by simpa using hnn))
  · intro hAdd
    cases hs : Assoc.find doc store with
    | none =>
      simp only [upsert, hs, Option.getD_none]
      refine allNonneg_set doc store _ h ?_
      exact Assoc.all_set _ [] product _ (by simp) (by simp [Assoc.find]; omega)
    | some prods =>
      simp only [upsert, hs, Option.getD_some]
      have hall := allNonneg_find doc store prods h hs
      have hcur : (0 : Int) ≤ (Assoc.find prods product).getD 0 := by
        cases hp : Assoc.find prods product with
        | none => simp
        | some cur => simpa using allNonneg_value prods product cur hall hp
      refine allNonneg_set doc store _ h ?_
      exact Assoc.all_set _ prods product _ hall (by simp; omega)

/-- Witness for C3: inventory `{"A": {"W": 5}}` stays non-negative after
a decrement of 3 and after an upsert adding 4. -/
theorem inventory_nonneg_preserved_witness :
    allNonneg [("A", [("W", (5 : Int))])] = true ∧
    (allNonneg (reduce_inventory [("A", [("W", 5)])] "A" "W" 3).1 = true ∧
      (0 ≤ (4 : Int) → allNonneg (upsert [("A", [("W", 5)])] "A" "W" 4) = true)) :=
  ⟨by decide, inventory_nonneg_preserved [("A", [("W", 5)])] "A" "W" 3 4 (by decide)⟩

/-- C4: upsert always succeeds (it is a total function on the document),
and after any sequence of upserts applied to an initially absent
`(store, product)` entry the stored quantity equals the sum of the
`qtyToAdd` values addressed to that pair. -/
theorem upsert_sum_spec (doc : Inventory) (calls : List (String × String × Int))
    (s p : String) (h : invFind doc s p = none) :
    qtyOf (applyUpserts doc calls) s p = sumFor calls s p := by
  rw [qtyOf_applyUpserts]
  simp [qtyOf, h]

/-- Witness for C4: from an empty document, upserts of 3 and 4 to
`("A", "W")` and 7 to `("B", "W")` leave `("A", "W")` at 7. -/
theorem upsert_sum_spec_witness :
    invFind [] "A" "W" = none ∧
    qtyOf (applyUpserts [] [("A", "W", (3 : Int)), ("A", "W", 4), ("B", "W", 7)]) "A" "W" =
      sumFor [("A", "W", 3), ("A", "W", 4), ("B", "W", 7)] "A" "W" :=
  ⟨by decide, upsert_sum_spec [] _ "A" "W" (by decide)⟩

/-- C2: `decrement(store, product, qty)` fails with NotFound when the
store or the product key is absent, fails with InsufficientStock when the
stored quantity is strictly below `qty`, and otherwise succeeds with the
stored quantity becoming `cur - qty`; on both failures the returned
(persisted) document is exactly the input document. -/
theorem reduce_inventory_spec (doc : Inventory) (store product : String) (qty : Int) :
    (invFind doc store product = none →
      reduce_inventory doc store product qty = (doc, .notFound)) ∧
    ∀ cur, invFind doc store product = some cur →
      (cur < qty → reduce_inventory doc store product qty = (doc, .insufficientStock)) ∧
      (qty ≤ cur →
        (reduce_inventory doc store product qty).2 = .ok ∧
        invFind (reduce_inventory doc store product qty).1 store product = some (cur - qty)) := by
  cases hs : Assoc.find doc store with
  | none =>
    refine ⟨fun _ => ?_, fun cur hcur => ?_⟩
    · simp [reduce_inventory, hs]
    · simp [invFind, hs] at hcur
  | some prods =>
    cases hp : Assoc.find prods product with
    | none =>
      refine ⟨fun _ => ?_, fun cur hcur => ?_⟩
      · simp [reduce_inventory, hs, hp]
      · simp [invFind, hs, hp] at hcur
    | some cur₀ =>
      refine ⟨fun habs => ?_, fun cur hcur => ⟨fun hlt => ?_, fun hge => ?_⟩⟩
      · simp [invFind, hs, hp] at habs
      · simp only [invFind, hs, hp, Option.some.injEq] at hcur
        rw [hcur] at hp
        simp [reduce_inventory, hs, hp, hlt]
      · simp only [invFind, hs, hp, Option.some.injEq] at hcur
        rw [hcur] at hp
        refine ⟨?_, ?_⟩
        · simp [reduce_inventory, hs, hp, not_lt.mpr hge]
        · simp only [reduce_inventory, hs, hp]
          rw [if_neg (not_lt.mpr hge)]
          simp [invFind, Assoc.find_set_self]

/-- Witness for C2 at the spec scenario: inventory `{"A": {"W": 5}}`,
decrement of 3 succeeds and leaves 2. -/
theorem reduce_inventory_spec_witness :
    invFind [("A", [("W", (5 : Int))])] "A" "W" = some 5 ∧ (3 : Int) ≤ 5 ∧
    ((reduce_inventory [("A", [("W", 5)])] "A" "W" 3).2 = .ok ∧
      invFind (reduce_inventory [("A", [("W", 5)])] "A" "W" 3).1 "A" "W" = some 2) :=
  ⟨by decide, by decide,
    ((reduce_inventory_spec [("A", [("W", 5)])] "A" "W" 3).2 5 (by decide)).2 (by decide)⟩

/-- C10: a decrement that brings a product's quantity to exactly 0
succeeds and keeps the product key present with value 0, so every later
decrement of that pair with `qty ≥ 1` fails with InsufficientStock (not
NotFound) and leaves the document unchanged. -/
theorem decrement_to_zero (doc : Inventory) (store product : String) (q : Int)
    (h : invFind doc store product = some q) :
    (reduce_inventory doc store product q).2 = .ok ∧
    invFind (reduce_inventory doc store product q).1 store product = some 0 ∧
    ∀ q2, 1 ≤ q2 →
      reduce_inventory (reduce_inventory doc store product q).1 store product q2 =
        ((reduce_inventory doc store product q).1, .insufficientStock) := by
  cases hs : Assoc.find doc store with
  | none => simp [invFind, hs] at h
  | some prods =>
    cases hp : Assoc.find prods product with
    | none => simp [invFind, hs, hp] at h
    | some cur =>
      simp only [invFind, hs, hp, Option.some.injEq] at h
      rw [h] at hp
      have hnl : ¬ q < q := lt_irrefl q
      have hred : reduce_inventory doc store product q =
          (Assoc.set doc store (Assoc.set prods product 0), .ok) := by
        simp [reduce_inventory, hs, hp, hnl]
      refine ⟨by simp [hred], ?_, ?_⟩
      · simp [hred, invFind, Assoc.find_set_self]
      · intro q2 hq2
        simp only [hred]
        simp [reduce_inventory, invFind, Assoc.find_set_self, show (0 : Int) < q2 by omega]

theorem pysum_eq_sum (l : List ℚ) : pysum l = l.sum :=
  (List.sum_eq_foldl).symm

/-- C5: `calculate_totals` returns the component-wise sums of the `cost`,
`sold` and `acc` fields, with `cash`/`card` the sums of `sold` over the
records paid in cash resp. card; on the empty list every component is
0. -/
theorem calculate_totals_spec (sales : List SaleRecord) :
    calculate_totals sales =
      { cost := (sales.map (·.cost)).sum
        sold := (sales.map (·.sold)).sum
        acc := (sales.map (·.acc)).sum
        cash := ((sales.filter (fun s => s.payment_method = "Cash")).map (·.sold)).sum
        card := ((sales.filter (fun s => s.payment_method = "Card")).map (·.sold)).sum } ∧
    calculate_totals [] = ⟨0, 0, 0, 0, 0⟩ := by
  constructor
  · simp [calculate_totals, pysum_eq_sum]
  · rfl

/-- C6 (amended): `calculate_totals` is invariant under permutation of
its input records when the monetary sums are taken in exact rational
arithmetic.  (Over the program's binary64 float arithmetic the original
claim fails: see the counterexample with the doubles of 0.1, 0.2, 0.3.) -/
theorem calculate_totals_perm (s t : List SaleRecord) (h : s.Perm t) :
    calculate_totals s = calculate_totals t := by
  simp only [calculate_totals, pysum_eq_sum, Totals.mk.injEq]
  exact ⟨(h.map _).sum_eq, (h.map _).sum_eq, (h.map _).sum_eq,
    ((h.filter _).map _).sum_eq, ((h.filter _).map _).sum_eq⟩

/-- Witness for C6: swapping two concrete records leaves the totals
unchanged. -/
theorem calculate_totals_perm_witness :
    ([sampleSale "Cash" 1 2, sampleSale "Card" 3 4]).Perm
      [sampleSale "Card" 3 4, sampleSale "Cash" 1 2] ∧
    calculate_totals [sampleSale "Cash" 1 2, sampleSale "Card" 3 4] =
      calculate_totals [sampleSale "Card" 3 4, sampleSale "Cash" 1 2] :=
  ⟨List.Perm.swap _ _ _,
    calculate_totals_perm _ _ (List.Perm.swap _ _ _)⟩

theorem sum_filter_cash_card (sales : List SaleRecord)
    (h : ∀ r ∈ sales, r.payment_method = "Cash" ∨ r.payment_method = "Card") :
    ((sales.filter (fun s => s.payment_method = "Cash")).map (·.sold)).sum +
      ((sales.filter (fun s => s.payment_method = "Card")).map (·.sold)).sum =
      (sales.map (·.sold)).sum := by
  induction sales with
  | nil => simp
  | cons r rest ih =>
    have hrest := fun x hx => h x (List.mem_cons_of_mem r hx)
    rcases h r (List.mem_cons_self r rest) with hc | hc <;>
      · simp [List.filter_cons, hc]
        linarith [ih hrest]

/-- C9 (amended): when every record's payment method is "Cash" or "Card"
(as for every record this system creates), the cash and card totals add
up to the sold total, provided the sums are taken in exact rational
arithmetic.  (Over the program's binary64 floats the equality can miss by
one unit in the last place: see the counterexample.) -/
theorem totals_cash_add_card (sales : List SaleRecord)
    (h : ∀ r ∈ sales, r.payment_method = "Cash" ∨ r.payment_method = "Card") :
    (calculate_totals sales).cash + (calculate_totals sales).card =
      (calculate_totals sales).sold := by
  simp only [calculate_totals, pysum_eq_sum]
  exact sum_filter_cash_card sales h

/-- Witness for C9 on two concrete records. -/
theorem totals_cash_add_card_witness :
    (∀ r ∈ [sampleSale "Cash" 1 2, sampleSale "Card" 3 4],
      r.payment_method = "Cash" ∨ r.payment_method = "Card") ∧
    (calculate_totals [sampleSale "Cash" 1 2, sampleSale "Card" 3 4]).cash +
        (calculate_totals [sampleSale "Cash" 1 2, sampleSale "Card" 3 4]).card =
      (calculate_totals [sampleSale "Cash" 1 2, sampleSale "Card" 3 4]).sold :=
  ⟨by decide, totals_cash_add_card _ (by decide)⟩

/-- Witness for C10: inventory `{"A": {"W": 2}}`, decrement by 2 reaches
0 and a further decrement by 1 fails with InsufficientStock. -/
theorem decrement_to_zero_witness :
    (reduce_inventory [("A", [("W", (2 : Int))])] "A" "W" 2).2 = .ok ∧
    invFind (reduce_inventory [("A", [("W", 2)])] "A" "W" 2).1 "A" "W" = some 0 ∧
    ∀ q2, 1 ≤ q2 →
      reduce_inventory (reduce_inventory [("A", [("W", 2)])] "A" "W" 2).1 "A" "W" q2 =
        ((reduce_inventory [("A", [("W", 2)])] "A" "W" 2).1, .insufficientStock) :=
  decrement_to_zero [("A", [("W", 2)])] "A" "W" 2 (by decide)

/-- C1: for a PhoneSale submission (with a non-empty product name) the
inventory decrement is the first ledger event, strictly before any
append; and when the decrement fails, the submission aborts with the
sales ledger unchanged and no append event at all. -/
theorem phone_sale_decrement_before_append (st : AppState)
    (employee store productInput : String) (qtyInput : Int) (cost sold : ℚ)
    (paymentMethod date : String) (hp : pyStrip productInput ≠ "") :
    (addSale st employee store "Phone Sale" productInput qtyInput cost sold
        paymentMethod date).2.2.head? =
      some (.decrementCall store (pyStrip productInput) qtyInput) ∧
    ((reduce_inventory st.inventory store (pyStrip productInput) qtyInput).2 ≠ .ok →
      (addSale st employee store "Phone Sale" productInput qtyInput cost sold
          paymentMethod date).1.sales = st.sales ∧
      ∀ r, SaleEvent.appendCall r ∉
        (addSale st employee store "Phone Sale" productInput qtyInput cost sold
          paymentMethod date).2.2) := by
  by_cases hok :
      (reduce_inventory st.inventory store (pyStrip productInput) qtyInput).2 = .ok
  · exact ⟨by simp [addSale, hp, hok], fun hne => absurd hok hne⟩
  · refine ⟨by simp [addSale, hp, hok], fun _ => ⟨by simp [addSale, hp, hok], ?_⟩⟩
    intro r
    simp [addSale, hp, hok]

/-- Witness for C1: with an empty inventory the decrement fails, the
trace holds only the decrement call and the sales ledger stays empty. -/
theorem phone_sale_decrement_before_append_witness :
    pyStrip "X" ≠ "" ∧
    ((addSale ⟨[], []⟩ "e" "1 E Penn Sq" "Phone Sale" "X" 1 0 0 "Cash"
        "d").2.2.head? =
      some (.decrementCall "1 E Penn Sq" (pyStrip "X") 1) ∧
    ((reduce_inventory ([] : Inventory) "1 E Penn Sq" (pyStrip "X") 1).2 ≠ .ok →
      (addSale ⟨[], []⟩ "e" "1 E Penn Sq" "Phone Sale" "X" 1 0 0 "Cash"
          "d").1.sales = [] ∧
      ∀ r, SaleEvent.appendCall r ∉
        (addSale ⟨[], []⟩ "e" "1 E Penn Sq" "Phone Sale" "X" 1 0 0 "Cash"
          "d").2.2)) :=
  ⟨by decide,
    phone_sale_decrement_before_append ⟨[], []⟩ "e" "1 E Penn Sq" "X" 1 0 0
      "Cash" "d" (by decide)⟩

/-- C7: a BillPayment submission with cost 0, sold 20, paid by card,
never touches the inventory (no decrement event, any inventory state),
appends exactly one record, and the totals of that single record are
`{cost := 0, sold := 20, acc := 20, cash := 0, card := 20}`. -/
theorem bill_payment_no_stock_check (st : AppState)
    (employee store productInput : String) (qtyInput : Int) (date : String) :
    (addSale st employee store "Bill Payment" productInput qtyInput 0 20 "Card"
        date).2.1 = .saved ∧
    (addSale st employee store "Bill Payment" productInput qtyInput 0 20 "Card"
        date).1.sales.length = st.sales.length + 1 ∧
    (∀ s p q, SaleEvent.decrementCall s p q ∉
      (addSale st employee store "Bill Payment" productInput qtyInput 0 20 "Card"
        date).2.2) ∧
    ∃ r, (addSale st employee store "Bill Payment" productInput qtyInput 0 20
        "Card" date).1.sales = st.sales ++ [r] ∧
      calculate_totals [r] = ⟨0, 20, 20, 0, 20⟩ := by
  have hbp : pyStrip "Bill Payment" = "Bill Payment" := rfl
  refine ⟨?_, ?_, ?_, ?_⟩
  · simp [addSale, hbp]
  · simp [addSale, hbp]
  · intro s p q
    simp [addSale, hbp]
  · refine ⟨⟨employee, store, date, "Bill Payment", "Bill Payment", 1, 0, 20,
      20 - 0, "Card"⟩, by simp [addSale, hbp], ?_⟩
    simp [calculate_totals, pysum, Totals.mk.injEq]

/-- C8: every record a successful Save Sale appends satisfies
`acc = sold - cost` (also when the margin is negative). -/
theorem saved_record_margin (st : AppState)
    (employee store saleType productInput : String) (qtyInput : Int)
    (cost sold : ℚ) (paymentMethod date : String)
    (hsaved : (addSale st employee store saleType productInput qtyInput cost sold
        paymentMethod date).2.1 = .saved) :
    ∃ r, (addSale st employee store saleType productInput qtyInput cost sold
        paymentMethod date).1.sales = st.sales ++ [r] ∧
      r.acc = r.sold - r.cost := by
  by_cases hphone : saleType = "Phone Sale"
  · subst hphone
    by_cases hemp : pyStrip productInput = ""
    · simp [addSale, hemp] at hsaved
    · by_cases hok :
          (reduce_inventory st.inventory store (pyStrip productInput) qtyInput).2 = .ok
      · exact ⟨⟨employee, store, date, "Phone Sale", pyStrip productInput,
          qtyInput, cost, sold, sold - cost, paymentMethod⟩,
          by simp [addSale, hemp, hok], rfl⟩
      · simp [addSale, hemp, hok] at hsaved
  · have hbp : pyStrip "Bill Payment" = "Bill Payment" := rfl
    exact ⟨⟨employee, store, date, saleType, "Bill Payment", 1, cost, sold,
      sold - cost, paymentMethod⟩, by simp [addSale, hphone, hbp], rfl⟩

/-- Witness for C8: a concrete bill payment with cost 5 and sold 3 is
saved with a negative margin `acc = -2 = 3 - 5`. -/
theorem saved_record_margin_witness :
    (addSale ⟨[], []⟩ "e" "1 E Penn Sq" "Bill Payment" "" 1 5 3 "Cash"
        "d").2.1 = .saved ∧
    ∃ r, (addSale ⟨[], []⟩ "e" "1 E Penn Sq" "Bill Payment" "" 1 5 3 "Cash"
        "d").1.sales = [] ++ [r] ∧ r.acc = r.sold - r.cost :=
  ⟨by decide,
    saved_record_margin ⟨[], []⟩ "e" "1 E Penn Sq" "Bill Payment" "" 1 5 3
      "Cash" "d" (by decide)⟩

theorem roundB64_neg_exp (q : ℚ) (k : ℕ) (m : ℤ) (f : ℚ)
    (h0 : 0 < q) (h1 : 1 ≤ q * 2 ^ k) (h2 : q * 2 ^ k < 2)
    (hd : q * 2 ^ (k + 52) = m + f) (hf0 : 0 ≤ f) (hf1 : f < 1) :
    roundB64 q =
      (if f < 1/2 then (m : ℚ) else if 1/2 < f then (m : ℚ) + 1
       else if m % 2 = 0 then (m : ℚ) else (m : ℚ) + 1) / 2 ^ (k + 52) := by
  have hpk : (0:ℚ) < 2 ^ k := by positivity
  have hlow : ((2:ℕ) : ℚ) ^ (-(k:ℤ)) ≤ q := by
    push_cast
    rw [zpow_neg, zpow_natCast, inv_eq_one_div, div_le_iff₀ hpk]
    linarith
  have hhigh : q < ((2:ℕ) : ℚ) ^ (-(k:ℤ) + 1) := by
    push_cast
    have he : ((2:ℚ)) ^ (-(k:ℤ) + 1) = 2 / 2 ^ k := by
      rw [zpow_add₀ (by norm_num : (2:ℚ) ≠ 0), zpow_neg, zpow_natCast, zpow_one]
      field_simp
    rw [he, lt_div_iff₀ hpk]
    linarith
  have hlog : Int.log 2 q = -(k:ℤ) := by
    have hle : -(k:ℤ) ≤ Int.log 2 q := (Int.zpow_le_iff_le_log one_lt_two h0).mp hlow
    have hlt : Int.log 2 q < -(k:ℤ) + 1 := (Int.lt_zpow_iff_log_lt one_lt_two h0).mp hhigh
    omega
  have hq0 : ¬ q = 0 := ne_of_gt h0
  have hqneg : ¬ q < 0 := not_lt.mpr h0.le
  have habs : |q| = q := abs_of_pos h0
  simp only [roundB64, if_neg hq0, if_neg hqneg, habs]
  rw [hlog]
  have hexp2 : (-(k:ℤ) - 52) = -(((k + 52 : ℕ)) : ℤ) := by push_cast; ring
  rw [hexp2, zpow_neg, zpow_natCast, div_inv_eq_mul, hd]
  have hfloor : ⌊(m : ℚ) + f⌋ = m := by
    rw [Int.floor_int_add, Int.floor_eq_zero_iff.mpr ⟨hf0, hf1⟩, add_zero]
  simp only [roundHalfEven, hfloor, add_sub_cancel_left]
  split_ifs <;> push_cast <;> ring

theorem rB_in01 : roundB64 (1/10) = d01 := by
  rw [roundB64_neg_exp (1/10) 4 7205759403792793 (3/5) (by norm_num) (by norm_num)
      (by norm_num) (by push_cast; norm_num) (by norm_num) (by norm_num)]
  norm_num [d01]

theorem rB_in02 : roundB64 (2/10) = d02 := by
  rw [roundB64_neg_exp (2/10) 3 7205759403792793 (3/5) (by norm_num) (by norm_num)
      (by norm_num) (by push_cast; norm_num) (by norm_num) (by norm_num)]
  norm_num [d02]

theorem rB_in03 : roundB64 (3/10) = d03 := by
  rw [roundB64_neg_exp (3/10) 2 5404319552844595 (1/5) (by norm_num) (by norm_num)
      (by norm_num) (by push_cast; norm_num) (by norm_num) (by norm_num)]
  norm_num [d03]

theorem rB_d01 : roundB64 d01 = d01 := by
  rw [roundB64_neg_exp d01 4 7205759403792794 0 (by norm_num [d01]) (by norm_num [d01])
      (by norm_num [d01]) (by push_cast; norm_num [d01]) (by norm_num) (by norm_num)]
  norm_num [d01]

theorem rB_d02 : roundB64 d02 = d02 := by
  rw [roundB64_neg_exp d02 3 7205759403792794 0 (by norm_num [d02]) (by norm_num [d02])
      (by norm_num [d02]) (by push_cast; norm_num [d02]) (by norm_num) (by norm_num)]
  norm_num [d02]

theorem rB_d03 : roundB64 d03 = d03 := by
  rw [roundB64_neg_exp d03 2 5404319552844595 0 (by norm_num [d03]) (by norm_num [d03])
      (by norm_num [d03]) (by push_cast; norm_num [d03]) (by norm_num) (by norm_num)]
  norm_num [d03]

theorem rB_12 : roundB64 (d01 + d02) = s12 := by
  rw [roundB64_neg_exp (d01 + d02) 2 5404319552844595 (1/2)
      (by norm_num [d01, d02]) (by norm_num [d01, d02]) (by norm_num [d01, d02])
      (by push_cast; norm_num [d01, d02]) (by norm_num) (by norm_num)]
  norm_num [s12]

theorem rB_t1 : roundB64 (s12 + d03) = t1 := by
  rw [roundB64_neg_exp (s12 + d03) 1 5404319552844595 (1/2)
      (by norm_num [s12, d03]) (by norm_num [s12, d03]) (by norm_num [s12, d03])
      (by push_cast; norm_num [s12, d03]) (by norm_num) (by norm_num)]
  norm_num [t1]

theorem rB_32 : roundB64 (d03 + d02) = 1/2 := by
  rw [roundB64_neg_exp (d03 + d02) 1 4503599627370496 0
      (by norm_num [d03, d02]) (by norm_num [d03, d02]) (by norm_num [d03, d02])
      (by push_cast; norm_num [d03, d02]) (by norm_num) (by norm_num)]
  norm_num

theorem rB_23 : roundB64 (d02 + d03) = 1/2 := by
  rw [roundB64_neg_exp (d02 + d03) 1 4503599627370496 0
      (by norm_num [d03, d02]) (by norm_num [d03, d02]) (by norm_num [d03, d02])
      (by push_cast; norm_num [d03, d02]) (by norm_num) (by norm_num)]
  norm_num

theorem rB_t2 : roundB64 (1/2 + d01) = t2 := by
  rw [roundB64_neg_exp (1/2 + d01) 1 5404319552844595 (1/4)
      (by norm_num [d01]) (by norm_num [d01]) (by norm_num [d01])
      (by push_cast; norm_num [d01]) (by norm_num) (by norm_num)]
  norm_num [t2]

theorem rB_zero : roundB64 0 = 0 := by simp [roundB64]

theorem pysumD_123 : pysumD [d01, d02, d03] = t1 := by
  simp only [pysumD, List.foldl_cons, List.foldl_nil, faddD, zero_add, rB_d01, rB_12, rB_t1]

theorem pysumD_321 : pysumD [d03, d02, d01] = t2 := by
  simp only [pysumD, List.foldl_cons, List.foldl_nil, faddD, zero_add, rB_d03, rB_32, rB_t2]

theorem pysumD_23 : pysumD [d02, d03] = 1/2 := by
  simp only [pysumD, List.foldl_cons, List.foldl_nil, faddD, zero_add, rB_d02, rB_23]

theorem pysumD_1 : pysumD [d01] = d01 := by
  simp only [pysumD, List.foldl_cons, List.foldl_nil, faddD, zero_add, rB_d01]

theorem pysumD_zeros : pysumD [0, 0, 0] = 0 := by
  simp only [pysumD, List.foldl_cons, List.foldl_nil, faddD, zero_add, rB_zero]

theorem pysumD_nil : pysumD [] = 0 := rfl

theorem t1_ne_t2 : t1 ≠ t2 := by norm_num [t1, t2]

theorem cash_card_ne_sold : d01 + 1/2 ≠ t1 := by norm_num [d01, t1]

/-- C6 counterexample: over the program's binary64 float arithmetic, with
the doubles the user inputs 0.1, 0.2, 0.3 produce, reversing the record
order changes the computed totals (sold 0.6000000000000001 versus 0.6),
so the program's `calculate_totals` is not permutation-invariant. -/
theorem calculate_totals_perm_counterexample :
    ([fsale "Card" d01, fsale "Card" d02, fsale "Card" d03]).Perm
      [fsale "Card" d03, fsale "Card" d02, fsale "Card" d01] ∧
    calculate_totalsD [fsale "Card" d01, fsale "Card" d02, fsale "Card" d03] ≠
      calculate_totalsD [fsale "Card" d03, fsale "Card" d02, fsale "Card" d01] := by
  constructor
  · simpa using
      (List.reverse_perm [fsale "Card" d01, fsale "Card" d02, fsale "Card" d03]).symm
  · have h1 : ¬ ("Card" = "Cash") := by decide
    have h2 : ("Card" = "Card") := rfl
    have e1 : calculate_totalsD [fsale "Card" d01, fsale "Card" d02, fsale "Card" d03] =
        ⟨0, t1, t1, 0, t1⟩ := by
      simp only [calculate_totalsD, fsale, List.filter_cons, List.filter_nil,
        decide_eq_true_eq, h1, h2, eq_self_iff_true, if_true, if_false,
        List.map_cons, List.map_nil]
      simp only [pysumD_123, pysumD_zeros, pysumD_nil]
    have e2 : calculate_totalsD [fsale "Card" d03, fsale "Card" d02, fsale "Card" d01] =
        ⟨0, t2, t2, 0, t2⟩ := by
      simp only [calculate_totalsD, fsale, List.filter_cons, List.filter_nil,
        decide_eq_true_eq, h1, h2, eq_self_iff_true, if_true, if_false,
        List.map_cons, List.map_nil]
      simp only [pysumD_321, pysumD_zeros, pysumD_nil]
    intro h
    rw [e1, e2] at h
    exact t1_ne_t2 (congrArg Totals.sold h)

/-- C9 counterexample: over the program's binary64 float arithmetic, the
list with sold amounts 0.1 (Cash), 0.2 (Card), 0.3 (Card) has
`cash = 0.1`, `card = 0.5`, but `sold = 0.6000000000000001`, so
`cash + card ≠ sold` even though every payment method is Cash or Card. -/
theorem totals_cash_add_card_counterexample :
    (∀ r ∈ [fsale "Cash" d01, fsale "Card" d02, fsale "Card" d03],
        r.payment_method = "Cash" ∨ r.payment_method = "Card") ∧
    (calculate_totalsD [fsale "Cash" d01, fsale "Card" d02, fsale "Card" d03]).cash +
        (calculate_totalsD [fsale "Cash" d01, fsale "Card" d02, fsale "Card" d03]).card ≠
      (calculate_totalsD [fsale "Cash" d01, fsale "Card" d02, fsale "Card" d03]).sold := by
  refine ⟨by simp [fsale], ?_⟩
  have h1 : ¬ ("Card" = "Cash") := by decide
  have h2 : ("Card" = "Card") := rfl
  have h3 : ¬ ("Cash" = "Card") := by decide
  have h4 : ("Cash" = "Cash") := rfl
  have e : calculate_totalsD [fsale "Cash" d01, fsale "Card" d02, fsale "Card" d03] =
      ⟨0, t1, t1, d01, 1/2⟩ := by
    simp only [calculate_totalsD, fsale, List.filter_cons, List.filter_nil,
      decide_eq_true_eq, h1, h2, h3, h4, eq_self_iff_true, if_true, if_false,
      List.map_cons, List.map_nil]
    simp only [pysumD_123, pysumD_zeros, pysumD_1, pysumD_23, pysumD_nil]
  rw [e]
  exact cash_card_ne_sold

end TotalWireless
